import Mathlib

/-!
# POSIX message-queue request/reply demo (`1_ipc/msgq/p_msgq.c`)

A shallow embedding of the server and the client of `p_msgq.c`, with the channel
transport modelled as a namespace of bounded FIFO queues, and the properties of the
protocol proved over it.

C strings are lists of characters; a buffer is a list of fixed length whose string
content is what precedes its first NUL.
-/

namespace MsgQ

/-! ## C strings and formatting -/

/-- The terminator of a C string. -/
def NUL : Char := Char.ofNat 0

/-- The string a C function reads from a buffer (`%s`, `strlen`, a queue name): the
characters before the first NUL. -/
def cstr (buf : List Char) : List Char := buf.takeWhile (fun ch => ch != NUL)

/-- The library call `strlen`. -/
def strlen (s : List Char) : Nat := (cstr s).length

/-- The library call `strncpy(dst, src, n)`: exactly `n` characters of `dst` are written,
the string of `src` cut at `n` and then NUL padding; no terminator is written when the
string has `n` characters or more. The rest of `dst` keeps its contents. -/
def strncpy (dst src : List Char) (n : Nat) : List Char :=
  ((cstr src).take n ++ List.replicate (n - (cstr src).length) NUL) ++ dst.drop n

/-- The library call `sprintf(dst, ...)` for an already formatted text `s`: the text and
its terminator are written at the start of `dst`. Writing past the end of the array is
undefined behaviour: `none`. -/
def sprintf (dst s : List Char) : Option (List Char) :=
  if s.length < dst.length then some (s ++ NUL :: dst.drop (s.length + 1)) else none

/-- The conversions `%d` and `%ld`: a decimal numeral, with a sign when negative. -/
def fmtInt : Int → List Char
  | Int.ofNat n => Nat.toDigits 10 n
  | Int.negSucc n => '-' :: Nat.toDigits 10 (n + 1)

/-- Conversion of an integer value to `int` (32 bits, two's complement). -/
def toInt32 (i : Int) : Int := (i + 2 ^ 31) % 2 ^ 32 - 2 ^ 31

/-- Conversion of an integer value to `size_t` (64 bits, unsigned). -/
def toSizeT (i : Int) : Int := i % 2 ^ 64

/-- The characters a `sprintf` of the text `s` leaves inside the array `dst`, whether or
not the text and its terminator fit: the characters are written in order from the start
of the array, and those that do not fit go past its end. -/
def sprintfInside (dst s : List Char) : List Char :=
  (s ++ NUL :: dst.drop (s.length + 1)).take dst.length

/-- The value of a list of decimal digit characters (used to read a numeral back). -/
def decValue (l : List Char) : Nat := l.foldl (fun a ch => 10 * a + (ch.toNat - 48)) 0

/-! ## Records and constants of `__includes.h` -/

/-- Modelled from the spec: the request record `svreq` of the header `__includes.h`, which
is not among the sources. The spec (section 3) gives its three fields; the server's
stores `req.qname[QNAME_MAX_SIZE]` and `req.buffer[MSG_MAX_SIZE]` make the two arrays
`QNAME_MAX_SIZE + 1` and `MSG_MAX_SIZE + 1` characters long. -/
structure svreq where
  qname : List Char
  pid : Int
  buffer : List Char
deriving DecidableEq, Repr

/-- Modelled from the spec: the reply record `svres` of the header `__includes.h`: one
bounded string of `MSG_MAX_SIZE + 1` characters. -/
structure svres where
  buffer : List Char
deriving DecidableEq, Repr

/-- A message in a queue: its length in bytes, and the record its bytes give when they
are received into a request object and into a reply object. -/
structure Msg where
  len : Nat
  asReq : svreq
  asRes : svres
deriving DecidableEq, Repr

/-- Modelled from the spec: what the header `__includes.h` fixes and the sources use: the
well-known queue name, the three size constants, the sizes of the two records, and how
the bytes of one record read as the other (their layout). -/
structure Includes where
  SERVER_QNAME : List Char
  MSG_MAX_COUNT : Nat
  MSG_MAX_SIZE : Nat
  QNAME_MAX_SIZE : Nat
  sizeof_svreq : Nat
  sizeof_svres : Nat
  reqAsRes : svreq → svres
  resAsReq : svres → svreq

/-- The macro `CLIENT_QNAME_PREFIX` of the client. -/
def CLIENT_QNAME_PREFIX : List Char := "/sample-client-queue".toList

/-- The exit status `EXIT_FAILURE`. -/
def EXIT_FAILURE : Int := 1

/-- An array of `n` characters with indeterminate contents `g`, those of an automatic
variable that was not initialised. -/
def array (n : Nat) (g : List Char) : List Char :=
  (g ++ List.replicate (n - g.length) NUL).take n

/-- The request object `svreq req;` as declared, before anything is stored in it. -/
def newReq (c : Includes) (g : svreq) : svreq :=
  { qname := array (c.QNAME_MAX_SIZE + 1) g.qname, pid := g.pid,
    buffer := array (c.MSG_MAX_SIZE + 1) g.buffer }

/-- The reply object `svres res;` as declared, before anything is stored in it. -/
def newRes (c : Includes) (g : svres) : svres :=
  { buffer := array (c.MSG_MAX_SIZE + 1) g.buffer }

/-! ## The channel transport

Modelled from the spec (section 4.1) and the POSIX calls the sources make: a namespace of
named FIFO queues, each with a capacity and a maximum message size. -/

/-- One message queue of the namespace. -/
structure Queue where
  name : List Char
  maxmsg : Nat
  msgsize : Nat
  msgs : List Msg
deriving DecidableEq, Repr

/-- Modelled from the spec: the channel namespace, the queues that exist and the number
of queues the system allows. -/
structure World where
  queues : List Queue
  queues_max : Nat
deriving DecidableEq, Repr

/-- A queue descriptor `mqd_t`: `none` is `-1`, and a valid descriptor refers to its queue
by name. -/
abbrev mqd_t := Option (List Char)

/-- The queue of a given name, when it exists. -/
def World.find (w : World) (name : List Char) : Option Queue :=
  w.queues.find? (fun q => q.name == name)

/-- Append a message to the first queue of a given name. -/
def pushTo (name : List Char) (m : Msg) : List Queue → List Queue
  | [] => []
  | q :: qs =>
    if q.name == name then { q with msgs := q.msgs ++ [m] } :: qs
    else q :: pushTo name m qs

/-- Remove the oldest message of the first queue of a given name. -/
def popFrom (name : List Char) : List Queue → List Queue
  | [] => []
  | q :: qs =>
    if q.name == name then { q with msgs := q.msgs.tail } :: qs
    else q :: popFrom name qs

/-- The call `mq_open(name, O_WRONLY)`: fails when no queue of that name exists. -/
def mq_open_wronly (w : World) (name : List Char) : mqd_t :=
  if (w.find name).isSome then some name else none

/-- The call `mq_open(name, O_CREAT | O_RDONLY, 0755, &attr)`: opens the queue of that name
when it exists, and creates it otherwise, which fails on invalid attributes and when the
system holds its maximum number of queues. -/
def mq_open_creat (w : World) (name : List Char) (maxmsg msgsize : Nat) : mqd_t × World :=
  if (w.find name).isSome then (some name, w)
  else if maxmsg = 0 ∨ msgsize = 0 ∨ w.queues_max ≤ w.queues.length then (none, w)
  else (some name, { w with queues := w.queues ++ [⟨name, maxmsg, msgsize, []⟩] })

/-- The call `mq_unlink(name)`: the name leaves the namespace. -/
def mq_unlink (w : World) (name : List Char) : World :=
  { w with queues := w.queues.filter (fun q => q.name != name) }

/-- What a call of `mq_send` does. -/
inductive SendResult where
  | ok (w : World)
  | error
  | blocked
deriving DecidableEq, Repr

/-- The call `mq_send(qd, msg, len, 0)`: an error on a bad descriptor and on a message
longer than the queue's message size; blocks while the queue is at capacity. -/
def mq_send (w : World) (qd : mqd_t) (m : Msg) : SendResult :=
  match qd with
  | none => .error
  | some name =>
    match w.find name with
    | none => .error
    | some q =>
      if q.msgsize < m.len then .error
      else if q.maxmsg ≤ q.msgs.length then .blocked
      else .ok { w with queues := pushTo name m w.queues }

/-- What a call of `mq_receive` does. -/
inductive RecvResult where
  | data (m : Msg) (w : World)
  | error
  | blocked
deriving DecidableEq, Repr

/-- The call `mq_receive(qd, buf, size, 0)`: an error on a bad descriptor and on a buffer
shorter than the queue's message size; blocks while the queue is empty; otherwise removes
and returns the oldest message. -/
def mq_receive (w : World) (qd : mqd_t) (size : Nat) : RecvResult :=
  match qd with
  | none => .error
  | some name =>
    match w.find name with
    | none => .error
    | some q =>
      if size < q.msgsize then .error
      else
        match q.msgs with
        | [] => .blocked
        | m :: _ => .data m { w with queues := popFrom name w.queues }

/-- Where a run of a process stands after some of its code has run against a world. -/
inductive Outcome (σ : Type) where
  /-- The code ran to its next program point. -/
  | next (s : σ) (w : World)
  /-- The process is inside a blocking call that cannot return in this world. -/
  | blocked
  /-- The code wrote past the end of an array. -/
  | undefined
deriving DecidableEq, Repr

/-! ## The server (`main`, lines 26 to 67) -/

/-- What a call of `mq_receive` on the well-known queue returns to the server: `-1`, or
a message, whose length is the value returned. -/
inductive Recv where
  | error
  | data (m : Msg)
deriving DecidableEq, Repr

/-- The program points of the server between its transport calls. -/
inductive ServerPc where
  | receiving
  | sending
  | exited (status : Int)
deriving DecidableEq, Repr

/-- The variables of the server, and what it has written to its two output streams. -/
structure Server where
  my_qd : mqd_t
  client_qd : mqd_t
  req : svreq
  res : svres
  hit_no : Int
  pc : ServerPc
  out : List String
  err : List String
deriving DecidableEq, Repr

/-- The line the server prints for a request (line 57). -/
def serverLog (hit_no : Int) (req : svreq) : String :=
  String.mk (fmtInt hit_no ++ ". Received \x27 ".toList ++ cstr req.buffer
    ++ " \x27 from ".toList ++ fmtInt req.pid ++ "\n\n".toList)

/-- The text of the reply for a sequence number (line 59). -/
def replyText (hit_no : Int) : List Char := "Your message id = ".toList ++ fmtInt hit_no

/-- Lines 27 to 45: the well-known queue is unlinked and created afresh, and the counter
starts at 1. `req0` and `res0` are the indeterminate contents of the two objects. -/
def serverStart (c : Includes) (req0 : svreq) (res0 : svres) (w : World) : Server × World :=
  let w1 := mq_unlink w c.SERVER_QNAME
  let r := mq_open_creat w1 c.SERVER_QNAME c.MSG_MAX_COUNT c.sizeof_svreq
  let s : Server :=
    { my_qd := r.1, client_qd := none, req := newReq c req0, res := newRes c res0,
      hit_no := 1, pc := .receiving, out := [], err := [] }
  if r.1 = none then ({ s with pc := .exited EXIT_FAILURE, err := ["mq_open"] }, r.2)
  else (s, r.2)

/-- Line 53: both strings of the request are terminated at their last index. -/
def terminate (c : Includes) (req : svreq) : svreq :=
  { req with
    qname := req.qname.set c.QNAME_MAX_SIZE NUL,
    buffer := req.buffer.set c.MSG_MAX_SIZE NUL }

/-- Lines 49 to 59, for one return `rv` of `mq_receive`: an error or a length other than
the record size is logged and the receive repeated; a request of the record size is
terminated, its reply queue opened, the request logged and the reply prepared, the
counter advancing (an `int`, taken to wrap around at its upper bound). -/
def serverRecv (c : Includes) (s : Server) (rv : Recv) (w : World) : Outcome Server :=
  match rv with
  | .error => .next { s with err := s.err ++ ["mq_receive"], pc := .receiving } w
  | .data m =>
    if m.len ≠ c.sizeof_svreq then
      .next { s with req := m.asReq, err := s.err ++ ["mq_receive"], pc := .receiving } w
    else
      let req := terminate c m.asReq
      let client_qd := mq_open_wronly w (cstr req.qname)
      let err := if client_qd = none then s.err ++ ["mq_open:client"] else s.err
      let out := s.out ++ [serverLog s.hit_no req]
      match sprintf s.res.buffer (replyText s.hit_no) with
      | none => .undefined
      | some buf =>
        .next { s with req := req, client_qd := client_qd, res := { buffer := buf },
                       hit_no := toInt32 (s.hit_no + 1), pc := .sending,
                       out := out, err := err } w

/-- The message the server sends: the reply object, `sizeof(svres)` bytes. -/
def replyMsg (c : Includes) (res : svres) : Msg :=
  { len := c.sizeof_svres, asReq := c.resAsReq res, asRes := res }

/-- Lines 61 to 64: the reply is sent on the descriptor just opened, a failure is logged,
and the descriptor closed. -/
def serverSend (c : Includes) (s : Server) (w : World) : Outcome Server :=
  match mq_send w s.client_qd (replyMsg c s.res) with
  | .blocked => .blocked
  | .error => .next { s with err := s.err ++ ["mq_write"], pc := .receiving } w
  | .ok w1 => .next { s with pc := .receiving } w1

/-- One turn of the server for one return of `mq_receive`: lines 49 to 64. -/
def serverIter (c : Includes) (s : Server) (rv : Recv) (w : World) : Outcome Server :=
  match serverRecv c s rv w with
  | .next s1 w1 => if s1.pc = .sending then serverSend c s1 w1 else .next s1 w1
  | .blocked => .blocked
  | .undefined => .undefined

/-- The server run over the successive returns of `mq_receive`, each with the namespace
as the other processes have left it when the call returns. The run stops where a send
blocks. -/
def serverRun (c : Includes) (s : Server) (w : World) : List (Recv × World) → Outcome Server
  | [] => .next s w
  | (rv, w1) :: rest =>
    match serverIter c s rv w1 with
    | .next s1 w2 => serverRun c s1 w2 rest
    | .blocked => .blocked
    | .undefined => .undefined

/-- The server's blocking receive taken from the namespace itself: the oldest message of
the well-known queue. -/
def serverPoll (c : Includes) (s : Server) (w : World) : Outcome Server :=
  match mq_receive w s.my_qd (c.sizeof_svreq + 1) with
  | .blocked => .blocked
  | .error => serverIter c s .error w
  | .data m w1 => serverIter c s (.data m) w1

/-- A return of `mq_receive` that the server takes for a request: exactly the size of the
request record. -/
def Recv.framed (c : Includes) : Recv → Bool
  | .error => false
  | .data m => m.len == c.sizeof_svreq

/-- The queue name the server reads in a received request (line 53 and 54). -/
def replyName (c : Includes) (m : Msg) : List Char :=
  cstr (terminate c m.asReq).qname

/-! ## The client (`main`, lines 85 to 146) -/

/-- The program points of the client between its blocking transport calls. -/
inductive ClientPc where
  | start
  | sending
  | receiving
  | aborted
  | exited (status : Int)
deriving DecidableEq, Repr

/-- The arguments, the process id and the variables of the client, and what it has
written to its two output streams. -/
structure Client where
  argv : List (List Char)
  pid : Int
  qd_server : mqd_t
  my_qd : mqd_t
  req : svreq
  res : svres
  pc : ClientPc
  out : List String
  err : List String
deriving DecidableEq, Repr

/-- A client process at its entry: `req0` and `res0` are the indeterminate contents of
its two objects. -/
def newClient (c : Includes) (argv : List (List Char)) (pid : Int) (req0 : svreq)
    (res0 : svres) : Client :=
  { argv := argv, pid := pid, qd_server := none, my_qd := none, req := newReq c req0,
    res := newRes c res0, pc := .start, out := [], err := [] }

/-- The queue name of a client: `sprintf(req.qname, "%s-%ld", CLIENT_QNAME_PREFIX, pid)`. -/
def clientQname (pid : Int) : List Char := CLIENT_QNAME_PREFIX ++ '-' :: fmtInt pid

/-- The condition of the assertion of line 90, `strlen(CLIENT_QNAME_PREFIX) <
QNAME_MAX_SIZE - 5`: the left side is a `size_t`, so the difference, an `int`, is
converted to `size_t` for the comparison, and a negative difference becomes a large
unsigned value. -/
def startupAssert (c : Includes) : Bool :=
  decide ((CLIENT_QNAME_PREFIX.length : Int) < toSizeT ((c.QNAME_MAX_SIZE : Int) - 5))

/-- The line the client prints for the reply (line 141). -/
def clientLog (pid : Int) (res : svres) : String :=
  String.mk ("Process id = ".toList ++ fmtInt pid ++ "\n Reply :- ".toList
    ++ cstr res.buffer ++ "\n\n".toList)

/-- Lines 90 to 130: the assertion, the check of the argument, the opening of the
well-known queue, the naming and creation of the reply queue, and the copy of the
argument into the request. -/
def clientStart (c : Includes) (cl : Client) (w : World) : Outcome Client :=
  if startupAssert c = false then .next { cl with pc := .aborted } w
  else
    match cl.argv with
    | _ :: arg :: _ =>
      if toInt32 (strlen arg) > (c.MSG_MAX_SIZE : Int) then
        .next { cl with err := cl.err ++ ["Message size limit exceeded!"],
                        pc := .exited EXIT_FAILURE } w
      else
        let qd_server := mq_open_wronly w c.SERVER_QNAME
        if qd_server = none then
          .next { cl with qd_server := qd_server, err := cl.err ++ ["mq_open:server"],
                          pc := .exited EXIT_FAILURE } w
        else
          match sprintf cl.req.qname (clientQname cl.pid) with
          | none => .undefined
          | some qn =>
            let req : svreq := { cl.req with qname := qn, pid := cl.pid }
            let r := mq_open_creat w (cstr req.qname) c.MSG_MAX_COUNT c.sizeof_svres
            if r.1 = none then
              .next { cl with qd_server := qd_server, my_qd := r.1, req := req,
                              err := cl.err ++ ["mq_open:client"],
                              pc := .exited EXIT_FAILURE } r.2
            else
              .next { cl with qd_server := qd_server, my_qd := r.1,
                              req := { req with
                                buffer := strncpy req.buffer arg c.MSG_MAX_SIZE },
                              pc := .sending } r.2
    | _ =>
      .next { cl with err := cl.err ++ ["No message!"], pc := .exited EXIT_FAILURE } w

/-- The message the client sends: the request object, `sizeof(svreq)` bytes. -/
def requestMsg (c : Includes) (req : svreq) : Msg :=
  { len := c.sizeof_svreq, asReq := req, asRes := c.reqAsRes req }

/-- Lines 132 to 135: the request is sent on the well-known queue; a failure ends the
process. -/
def clientSend (c : Includes) (cl : Client) (w : World) : Outcome Client :=
  match mq_send w cl.qd_server (requestMsg c cl.req) with
  | .blocked => .blocked
  | .error => .next { cl with err := cl.err ++ ["mq_send"], pc := .exited EXIT_FAILURE } w
  | .ok w1 => .next { cl with pc := .receiving } w1

/-- Lines 137 to 145, for one call of `mq_receive` on the reply queue: an error or a
length other than the reply size is logged and the receive repeated; a reply is
terminated and printed, both descriptors closed, and the reply queue unlinked. -/
def clientRecv (c : Includes) (cl : Client) (w : World) : Outcome Client :=
  match mq_receive w cl.my_qd (c.sizeof_svres + 1) with
  | .blocked => .blocked
  | .error => .next { cl with err := cl.err ++ ["mq_receive"] } w
  | .data m w1 =>
    if m.len ≠ c.sizeof_svres then
      .next { cl with res := m.asRes, err := cl.err ++ ["mq_receive"] } w1
    else
      let res : svres := { buffer := m.asRes.buffer.set c.MSG_MAX_SIZE NUL }
      .next { cl with res := res, out := cl.out ++ [clientLog cl.pid res], pc := .exited 0 }
        (mq_unlink w1 (cstr cl.req.qname))

/-- One step of the client: from a program point to the next one. A process that has
ended takes no step. -/
def clientStep (c : Includes) (cl : Client) (w : World) : Outcome Client :=
  match cl.pc with
  | .start => clientStart c cl w
  | .sending => clientSend c cl w
  | .receiving => clientRecv c cl w
  | .aborted => .next cl w
  | .exited _ => .next cl w

/-- The client run for at most `n` steps with no other process acting. -/
def clientRun (c : Includes) : Nat → Client → World → Outcome Client
  | 0, cl, w => .next cl w
  | n + 1, cl, w =>
    match clientStep c cl w with
    | .next cl1 w1 => clientRun c n cl1 w1
    | .blocked => .blocked
    | .undefined => .undefined

/-- The number of requests of exactly the record size among the returns of the receive. -/
def framedCount (c : Includes) (evs : List (Recv × World)) : Nat :=
  (evs.filter (fun e => e.1.framed c)).length

/-- Whether a send of `len` bytes on a descriptor finds its queue at capacity. -/
def sendBlocks (w : World) (qd : mqd_t) (len : Nat) : Bool :=
  match qd with
  | none => false
  | some name =>
    match w.find name with
    | none => false
    | some q => !decide (q.msgsize < len) && decide (q.maxmsg ≤ q.msgs.length)

/-- Whether the reply to a return of the receive would block: a request of the record
size whose reply queue exists and is at capacity. -/
def replyBlocks (c : Includes) (e : Recv × World) : Bool :=
  match e.1 with
  | .error => false
  | .data m =>
    m.len == c.sizeof_svreq &&
      sendBlocks e.2 (mq_open_wronly e.2 (replyName c m)) c.sizeof_svres

/-- The state of an outcome that reached its next program point, `d` otherwise. -/
def Outcome.state {σ : Type} (o : Outcome σ) (d : σ) : σ :=
  match o with
  | .next s _ => s
  | _ => d

/-- The namespace of an outcome that reached its next program point, `d` otherwise. -/
def Outcome.world {σ : Type} (o : Outcome σ) (d : World) : World :=
  match o with
  | .next _ w => w
  | _ => d

/-! ## Concrete headers and processes used to evaluate the embedding -/

/-- A header with 32-character names and payloads: the request record is the name
(33 bytes, padded to 40), the process id (8 bytes) and the payload (33 bytes), padded to
88 bytes; the reply record is the payload alone. -/
def demo : Includes :=
  { SERVER_QNAME := "/sample-server-queue".toList
    MSG_MAX_COUNT := 10
    MSG_MAX_SIZE := 32
    QNAME_MAX_SIZE := 32
    sizeof_svreq := 88
    sizeof_svres := 33
    reqAsRes := fun r => { buffer := r.qname }
    resAsReq := fun r => { qname := r.buffer, pid := 0, buffer := List.replicate 33 NUL } }

/-- The header `demo` with 26-character names, the smallest name size above 4 that the
client's assertion accepts: the request record is the name (27 bytes, padded to 32), the
process id (8 bytes) and the payload (33 bytes), padded to 80 bytes. -/
def tight : Includes :=
  { demo with
    QNAME_MAX_SIZE := 26
    sizeof_svreq := 80
    resAsReq := fun r =>
      { qname := r.buffer.take 27, pid := 0, buffer := List.replicate 33 NUL } }

/-- The header `demo` with 4-character names: `QNAME_MAX_SIZE - 5` is negative. -/
def tiny : Includes :=
  { demo with
    QNAME_MAX_SIZE := 4
    sizeof_svreq := 56
    resAsReq := fun r =>
      { qname := r.buffer.take 5, pid := 0, buffer := List.replicate 33 NUL } }

/-- Indeterminate contents for a request object. -/
def junkReq : svreq :=
  { qname := List.replicate 40 'q', pid := 77, buffer := List.replicate 40 'b' }

/-- Indeterminate contents for a reply object. -/
def junkRes : svres := { buffer := List.replicate 40 'r' }

/-- A namespace with no queue in it. -/
def emptyWorld : World := { queues := [], queues_max := 16 }

/-- One exchange with no other process acting: the client runs up to its receive, the
server takes the oldest request and replies, and the client takes the reply and ends. -/
def exchange (c : Includes) (s : Server) (cl : Client) (w : World) :
    Option (Server × Client × World) :=
  match clientRun c 2 cl w with
  | .next cl1 w1 =>
    match serverPoll c s w1 with
    | .next s1 w2 =>
      match clientRun c 1 cl1 w2 with
      | .next cl2 w3 => some (s1, cl2, w3)
      | _ => none
    | _ => none
  | _ => none

/-- The server of `demo` just started in an empty namespace. -/
def demoServer : Server := (serverStart demo junkReq junkRes emptyWorld).1

/-- The namespace the server of `demo` leaves when it has started. -/
def demoWorld : World := (serverStart demo junkReq junkRes emptyWorld).2

/-- A client of `demo`, process 4242, run with the argument `hello`. -/
def helloClient : Client :=
  newClient demo ["client".toList, "hello".toList] 4242 junkReq junkRes

/-- A client of `demo`, process 4243, run with the argument `world`. -/
def worldClient : Client :=
  newClient demo ["client".toList, "world".toList] 4243 junkReq junkRes

/-- A client of `demo`, process 4244, whose argument has exactly `MSG_MAX_SIZE`
characters. -/
def fullClient : Client :=
  newClient demo ["client".toList, "0123456789abcdef0123456789abcdef".toList] 4244
    junkReq junkRes

/-- The request of a client of `demo`, process 4000, whose reply queue no longer exists. -/
def goneMsg : Msg :=
  requestMsg demo
    { qname := array 33 (clientQname 4000), pid := 4000, buffer := array 33 "gone".toList }

/-- The request `helloClient` sends. -/
def helloMsg : Msg := requestMsg demo ((clientStart demo helloClient demoWorld).state helloClient).req

/-- The namespace once `helloClient` has created its reply queue. -/
def helloWorld : World := (clientStart demo helloClient demoWorld).world demoWorld

/-- The server of `tight` just started in an empty namespace. -/
def tightServer : Server := (serverStart tight junkReq junkRes emptyWorld).1

/-- A client of `tight`, process 10000, whose queue name has 26 characters. -/
def shortClient : Client :=
  newClient tight ["client".toList, "short".toList] 10000 junkReq junkRes

/-- A client of `tight`, process 100000, whose queue name has 27 characters. -/
def longClient : Client :=
  newClient tight ["client".toList, "long".toList] 100000 junkReq junkRes

/-- The namespace of `tight` once the server has started and `shortClient` has created
its reply queue. -/
def tightWorld : World :=
  (clientStart tight shortClient (serverStart tight junkReq junkRes emptyWorld).2).world
    emptyWorld

/-- The request of `longClient` as its bytes stand when it is sent: line 123 fills the
27 characters of the array `qname` with the 27 characters of the name and writes the
terminator past the end of the array. -/
def longMsg : Msg :=
  requestMsg tight
    { qname := sprintfInside longClient.req.qname (clientQname 100000), pid := 100000,
      buffer := strncpy longClient.req.buffer "long".toList tight.MSG_MAX_SIZE }

/-- The namespace of `demo` once the server has started and `helloClient` and then
`worldClient` have created their reply queues. -/
def pairWorld : World := (clientStart demo worldClient helloWorld).world helloWorld

/-- A message of 33 bytes, not the size of a request of `demo`. -/
def shortMsg : Msg := replyMsg demo junkRes

/-- A namespace whose well-known queue was created for a smaller request record (64
bytes a message), as by a server built from another header. -/
def staleWorld : World :=
  { queues := [{ name := demo.SERVER_QNAME, maxmsg := 10, msgsize := 64, msgs := [] }],
    queues_max := 16 }

/-! ## Lemmas on strings and numerals -/

theorem cstr_cons_ne (a : Char) (t : List Char) (ha : a ≠ NUL) : cstr (a :: t) = a :: cstr t := by
  have hb : (a != NUL) = true := by simpa using ha
  simp [cstr, List.takeWhile_cons, hb]

theorem cstr_append_nul (s rest : List Char) (h : NUL ∉ s) : cstr (s ++ NUL :: rest) = s := by
  induction s with
  | nil => simp [cstr, List.takeWhile]
  | cons a t ih =>
    have ha : a ≠ NUL := fun e => h (by simp [e])
    have ht : NUL ∉ t := fun e => h (by simp [e])
    rw [List.cons_append, cstr_cons_ne a _ ha, ih ht]

theorem digitChar_cases (d : Nat) : Nat.digitChar d ∈ "0123456789abcdef*".toList := by
  match d with
  | 0 | 1 | 2 | 3 | 4 | 5 | 6 | 7 | 8 | 9 | 10 | 11 | 12 | 13 | 14 | 15 => decide
  | n + 16 =>
    have : Nat.digitChar (n + 16) = '*' := rfl
    rw [this]; decide

theorem digitChar_ne_nul (d : Nat) : Nat.digitChar d ≠ NUL := by
  intro h
  have := digitChar_cases d
  rw [h] at this
  revert this
  decide




theorem set_nul_cons (rest : List Char) (j : Nat) :
    ∃ rest2, (NUL :: rest).set j NUL = NUL :: rest2 := by
  cases j with
  | zero => exact ⟨rest, rfl⟩
  | succ j => exact ⟨rest.set j NUL, rfl⟩

theorem cstr_set_after (s rest : List Char) (n : Nat) (h : NUL ∉ s) (hn : s.length ≤ n) :
    cstr ((s ++ NUL :: rest).set n NUL) = s := by
  rw [List.set_append_right _ _ hn]
  obtain ⟨r2, hr⟩ := set_nul_cons rest (n - s.length)
  rw [hr]
  exact cstr_append_nul s r2 h

theorem toDigitsCore_mem (b : Nat) : ∀ (fuel n : Nat) (acc : List Char) (ch : Char),
    ch ∈ Nat.toDigitsCore b fuel n acc → ch ∈ acc ∨ ∃ d, ch = Nat.digitChar d := by
  intro fuel
  induction fuel with
  | zero => intro n acc ch h; simp [Nat.toDigitsCore] at h; exact Or.inl h
  | succ f ih =>
    intro n acc ch h
    simp only [Nat.toDigitsCore] at h
    split_ifs at h with hz
    · rcases List.mem_cons.1 h with h | h
      · exact Or.inr ⟨_, h⟩
      · exact Or.inl h
    · rcases ih _ _ _ h with h | h
      · rcases List.mem_cons.1 h with h | h
        · exact Or.inr ⟨_, h⟩
        · exact Or.inl h
      · exact Or.inr h

theorem toDigits_mem (n : Nat) (ch : Char) (h : ch ∈ Nat.toDigits 10 n) :
    ∃ d, ch = Nat.digitChar d := by
  rcases toDigitsCore_mem 10 _ _ _ _ h with h | h
  · simp at h
  · exact h

theorem digitChar_val (d : Nat) (h : d < 10) : (Nat.digitChar d).toNat - 48 = d := by
  interval_cases d <;> decide

theorem toDigitsCore_value : ∀ (fuel n : Nat) (acc : List Char), n < fuel →
    (Nat.toDigitsCore 10 fuel n acc).foldl (fun a ch => 10 * a + (ch.toNat - 48)) 0
      = acc.foldl (fun a ch => 10 * a + (ch.toNat - 48)) n := by
  intro fuel
  induction fuel with
  | zero => intro n acc h; omega
  | succ f ih =>
    intro n acc h
    simp only [Nat.toDigitsCore]
    split_ifs with hz
    · have hn : n < 10 := by omega
      simp only [List.foldl_cons, Nat.mul_zero, Nat.zero_add]
      rw [digitChar_val _ (Nat.mod_lt _ (by decide)), Nat.mod_eq_of_lt hn]
    · rw [ih (n / 10) _ (by omega)]
      simp only [List.foldl_cons]
      rw [digitChar_val _ (Nat.mod_lt _ (by decide))]
      congr 1
      omega

theorem decValue_toDigits (n : Nat) : decValue (Nat.toDigits 10 n) = n := by
  unfold decValue Nat.toDigits
  rw [toDigitsCore_value _ _ _ (by omega)]
  rfl

theorem toDigits_injective (m n : Nat) (h : Nat.toDigits 10 m = Nat.toDigits 10 n) : m = n := by
  have := congrArg decValue h
  rwa [decValue_toDigits, decValue_toDigits] at this

theorem toDigits_length_le (n e : Nat) (he : 0 < e) (h : n < 10 ^ e) :
    (Nat.toDigits 10 n).length ≤ e :=
  Nat.toDigitsCore_length 10 (by decide) _ n e h he

theorem toDigits_head_ne_minus (n : Nat) (l : List Char) : Nat.toDigits 10 n ≠ '-' :: l := by
  intro h
  have hm : '-' ∈ Nat.toDigits 10 n := by rw [h]; simp
  obtain ⟨d, hd⟩ := toDigits_mem n _ hm
  have := digitChar_cases d
  rw [← hd] at this
  revert this
  decide

theorem fmtInt_injective (a b : Int) (h : fmtInt a = fmtInt b) : a = b := by
  cases a with
  | ofNat m =>
    cases b with
    | ofNat n => simp only [fmtInt] at h; rw [toDigits_injective m n h]
    | negSucc n => simp only [fmtInt] at h; exact absurd h (toDigits_head_ne_minus m _)
  | negSucc m =>
    cases b with
    | ofNat n => simp only [fmtInt] at h; exact absurd h.symm (toDigits_head_ne_minus n _)
    | negSucc n =>
      simp only [fmtInt, List.cons.injEq, true_and] at h
      have := toDigits_injective _ _ h
      have : m = n := by omega
      rw [this]

theorem fmtInt_not_mem_nul (a : Int) : NUL ∉ fmtInt a := by
  intro h
  cases a with
  | ofNat m =>
    obtain ⟨d, hd⟩ := toDigits_mem m _ h
    exact digitChar_ne_nul d hd.symm
  | negSucc m =>
    simp only [fmtInt] at h
    rcases List.mem_cons.1 h with h | h
    · revert h; decide
    · obtain ⟨d, hd⟩ := toDigits_mem _ _ h
      exact digitChar_ne_nul d hd.symm

theorem clientQname_injective (a b : Int) (h : clientQname a = clientQname b) : a = b := by
  unfold clientQname at h
  have := List.append_cancel_left h
  simp only [List.cons.injEq, true_and] at this
  exact fmtInt_injective a b this

theorem clientQname_not_mem_nul (a : Int) : NUL ∉ clientQname a := by
  unfold clientQname
  intro h
  rcases List.mem_append.1 h with h | h
  · revert h; decide
  · rcases List.mem_cons.1 h with h | h
    · revert h; decide
    · exact fmtInt_not_mem_nul a h

theorem clientQname_length (a : Int) : (clientQname a).length = 21 + (fmtInt a).length := by
  unfold clientQname
  rw [List.length_append, List.length_cons]
  have : CLIENT_QNAME_PREFIX.length = 20 := by decide
  omega

theorem startupAssert_le (c : Includes) (h : startupAssert c = true)
    (h5 : 5 ≤ c.QNAME_MAX_SIZE) : 26 ≤ c.QNAME_MAX_SIZE := by
  unfold startupAssert toSizeT at h
  have h1 : CLIENT_QNAME_PREFIX.length = 20 := by decide
  rw [h1] at h
  have h2 := of_decide_eq_true h
  norm_num at h2
  omega

theorem fmtInt_length_le (pid : Int) (e : Nat) (he : 0 < e) (h0 : 0 ≤ pid) (h : pid < 10 ^ e) :
    (fmtInt pid).length ≤ e := by
  cases pid with
  | ofNat n =>
    simp only [fmtInt]
    apply toDigits_length_le n e he
    have : ((n : Nat) : Int) < ((10 ^ e : Nat) : Int) := by push_cast; exact h
    exact Int.ofNat_lt.1 this
  | negSucc n => exact absurd h0 (by simp)

theorem array_length (n : Nat) (g : List Char) : (array n g).length = n := by
  unfold array
  rw [List.length_take, List.length_append, List.length_replicate]
  omega

theorem sprintf_fits (dst s : List Char) (h : s.length < dst.length) :
    sprintf dst s = some (s ++ NUL :: dst.drop (s.length + 1)) := by
  simp [sprintf, h]

theorem sprintf_eq_some (dst s buf : List Char) (h : sprintf dst s = some buf) :
    s.length < dst.length ∧ buf = s ++ NUL :: dst.drop (s.length + 1) := by
  unfold sprintf at h
  split_ifs at h with hl
  exact ⟨hl, (Option.some.inj h).symm⟩

theorem sprintfInside_of_fits (dst s qn : List Char) (h : sprintf dst s = some qn) :
    sprintfInside dst s = qn := by
  obtain ⟨hl, rfl⟩ := sprintf_eq_some dst s qn h
  unfold sprintfInside
  apply List.take_of_length_le
  simp only [List.length_append, List.length_cons, List.length_drop]
  omega

theorem mq_open_creat_fst (w : World) (name : List Char) (a b : Nat) :
    (mq_open_creat w name a b).1 = none ∨ (mq_open_creat w name a b).1 = some name := by
  unfold mq_open_creat
  split_ifs <;> simp

theorem clientStart_sending (c : Includes) (cl cl1 : Client) (w w1 : World)
    (h : clientStart c cl w = .next cl1 w1) (hpc : cl1.pc = .sending) :
    ∃ prog arg rest qn, cl.argv = prog :: arg :: rest ∧ startupAssert c = true
      ∧ toInt32 (strlen arg) ≤ (c.MSG_MAX_SIZE : Int)
      ∧ (w.find c.SERVER_QNAME).isSome
      ∧ sprintf cl.req.qname (clientQname cl.pid) = some qn
      ∧ (mq_open_creat w (cstr qn) c.MSG_MAX_COUNT c.sizeof_svres).1 = some (cstr qn)
      ∧ w1 = (mq_open_creat w (cstr qn) c.MSG_MAX_COUNT c.sizeof_svres).2
      ∧ cl1 = { cl with qd_server := some c.SERVER_QNAME, my_qd := some (cstr qn),
                        req := { qname := qn, pid := cl.pid,
                                 buffer := strncpy cl.req.buffer arg c.MSG_MAX_SIZE },
                        pc := .sending } := by
  unfold clientStart at h
  split_ifs at h with ha
  · cases h; simp at hpc
  · split at h
    · rename_i prog arg rest hargv
      dsimp only at h
      split_ifs at h with hlen hsrv
      · cases h; simp at hpc
      · cases h; simp at hpc
      · split at h
        · cases h
        · rename_i qn hqn
          split_ifs at h with hcr
          · cases h; simp at hpc
          · cases h
            refine ⟨prog, arg, rest, qn, hargv, by simpa using ha, by omega, ?_, hqn, ?_, rfl, ?_⟩
            · unfold mq_open_wronly at hsrv
              split_ifs at hsrv with h1
              · exact h1
              · exact absurd rfl hsrv
            · rcases mq_open_creat_fst w (cstr qn) c.MSG_MAX_COUNT c.sizeof_svres with h1 | h1
              · exact absurd h1 hcr
              · exact h1
            · have e1 : mq_open_wronly w c.SERVER_QNAME = some c.SERVER_QNAME := by
                unfold mq_open_wronly at hsrv ⊢
                split_ifs at hsrv ⊢ with h1
                · rfl
                · exact absurd rfl hsrv
              have e2 : (mq_open_creat w (cstr qn) c.MSG_MAX_COUNT c.sizeof_svres).1
                  = some (cstr qn) := by
                rcases mq_open_creat_fst w (cstr qn) c.MSG_MAX_COUNT c.sizeof_svres with h1 | h1
                · exact absurd h1 hcr
                · exact h1
              simp only [e1, e2]
    · cases h; simp at hpc

/-! ## Lemmas on the transport and the server -/

theorem toInt32_succ (k : Int) (h0 : 0 ≤ k) (h1 : k + 1 < 2 ^ 31) : toInt32 (k + 1) = k + 1 := by
  unfold toInt32
  norm_num at h1 ⊢
  omega

theorem replyText_length (k : Int) : (replyText k).length = 18 + (fmtInt k).length := by
  unfold replyText
  rw [List.length_append]
  have : "Your message id = ".toList.length = 18 := by decide
  omega

theorem replyText_not_mem_nul (k : Int) : NUL ∉ replyText k := by
  unfold replyText
  intro h
  rcases List.mem_append.1 h with h | h
  · revert h; decide
  · exact fmtInt_not_mem_nul k h

theorem serverRecv_framed (c : Includes) (s : Server) (m : Msg) (w : World)
    (hm : m.len = c.sizeof_svreq)
    (hfit : (replyText s.hit_no).length < s.res.buffer.length) :
    serverRecv c s (.data m) w = .next
      { s with req := terminate c m.asReq,
               client_qd := mq_open_wronly w (replyName c m),
               res := { buffer := replyText s.hit_no ++ NUL ::
                          s.res.buffer.drop ((replyText s.hit_no).length + 1) },
               hit_no := toInt32 (s.hit_no + 1), pc := .sending,
               out := s.out ++ [serverLog s.hit_no (terminate c m.asReq)],
               err := if mq_open_wronly w (replyName c m) = none
                      then s.err ++ ["mq_open:client"] else s.err } w := by
  unfold serverRecv
  simp only [hm, ne_eq, not_true_eq_false, if_false, sprintf_fits _ _ hfit, replyName]

theorem serverRecv_framed_cases (c : Includes) (s : Server) (m : Msg) (w : World)
    (hm : m.len = c.sizeof_svreq) :
    serverRecv c s (.data m) w = .undefined ∨
    ∃ s1, serverRecv c s (.data m) w = .next s1 w ∧ s1.pc = .sending
      ∧ s1.hit_no = toInt32 (s.hit_no + 1)
      ∧ s1.out = s.out ++ [serverLog s.hit_no (terminate c m.asReq)]
      ∧ s1.client_qd = mq_open_wronly w (replyName c m)
      ∧ s1.res.buffer.length = s.res.buffer.length := by
  by_cases hfit : (replyText s.hit_no).length < s.res.buffer.length
  · right
    refine ⟨_, serverRecv_framed c s m w hm hfit, rfl, rfl, rfl, rfl, ?_⟩
    simp only [List.length_append, List.length_cons, List.length_drop]
    omega
  · left
    unfold serverRecv
    simp [hm, sprintf, hfit]

theorem serverRecv_discard (c : Includes) (s : Server) (m : Msg) (w : World)
    (hm : m.len ≠ c.sizeof_svreq) :
    serverRecv c s (.data m) w
      = .next { s with req := m.asReq, err := s.err ++ ["mq_receive"], pc := .receiving } w := by
  unfold serverRecv
  simp [hm]

theorem mq_send_blocked_iff (w : World) (qd : mqd_t) (m : Msg) :
    mq_send w qd m = .blocked ↔ sendBlocks w qd m.len = true := by
  unfold mq_send sendBlocks
  cases qd with
  | none => simp
  | some name =>
    simp only
    cases w.find name with
    | none => simp
    | some q =>
      simp only
      split_ifs <;> simp_all

theorem mq_send_ok (w w1 : World) (qd : mqd_t) (m : Msg) (h : mq_send w qd m = .ok w1) :
    ∃ name q, qd = some name ∧ w.find name = some q ∧ m.len ≤ q.msgsize
      ∧ q.msgs.length < q.maxmsg ∧ w1 = { w with queues := pushTo name m w.queues } := by
  unfold mq_send at h
  cases qd with
  | none => simp at h
  | some name =>
    simp only at h
    cases hq : w.find name with
    | none => simp [hq] at h
    | some q =>
      simp only [hq] at h
      split_ifs at h with h1 h2
      cases h
      exact ⟨name, q, rfl, hq, by omega, by omega, rfl⟩

theorem mq_send_deliver (w : World) (name : List Char) (q : Queue) (m : Msg)
    (hq : w.find name = some q) (h1 : m.len ≤ q.msgsize) (h2 : q.msgs.length < q.maxmsg) :
    mq_send w (some name) m = .ok { w with queues := pushTo name m w.queues } := by
  unfold mq_send
  simp only [hq]
  rw [if_neg (by omega), if_neg (by omega)]

theorem find_pushTo_ne (name other : List Char) (m : Msg) (qs : List Queue)
    (h : other ≠ name) :
    (pushTo name m qs).find? (fun q => q.name == other) = qs.find? (fun q => q.name == other) := by
  induction qs with
  | nil => rfl
  | cons q qs ih =>
    unfold pushTo
    by_cases hq : q.name = name
    · have hne : ¬ (name = other) := fun e => h e.symm
      simp [hq, List.find?_cons, hne]
    · simp only [beq_iff_eq, hq, if_false, List.find?_cons]
      rw [ih]

theorem find_pushTo_eq (name : List Char) (m : Msg) (qs : List Queue) (q : Queue)
    (h : qs.find? (fun q => q.name == name) = some q) :
    (pushTo name m qs).find? (fun q => q.name == name)
      = some { q with msgs := q.msgs ++ [m] } := by
  induction qs with
  | nil => simp at h
  | cons p qs ih =>
    unfold pushTo
    by_cases hp : p.name = name
    · simp only [List.find?_cons, beq_iff_eq, hp] at h
      simp at h
      subst h
      simp [hp, List.find?_cons]
    · have hb : (p.name == name) = false := by simpa using hp
      rw [List.find?_cons, hb] at h
      simp only [hb, Bool.false_eq_true, if_false, List.find?_cons]
      exact ih h


theorem serverIter_error (c : Includes) (s : Server) (w : World) :
    serverIter c s .error w
      = .next { s with err := s.err ++ ["mq_receive"], pc := .receiving } w := by
  simp [serverIter, serverRecv]

theorem serverIter_discard (c : Includes) (s : Server) (m : Msg) (w : World)
    (hm : m.len ≠ c.sizeof_svreq) :
    serverIter c s (.data m) w
      = .next { s with req := m.asReq, err := s.err ++ ["mq_receive"], pc := .receiving } w := by
  simp [serverIter, serverRecv_discard c s m w hm]

theorem serverIter_of_recv (c : Includes) (s s1 : Server) (m : Msg) (w : World)
    (h : serverRecv c s (.data m) w = .next s1 w) (hpc : s1.pc = .sending) :
    serverIter c s (.data m) w = serverSend c s1 w := by
  simp [serverIter, h, hpc]

theorem serverSend_cases (c : Includes) (s : Server) (w : World) :
    serverSend c s w = .blocked ∨
    ∃ s2 w2, serverSend c s w = .next s2 w2 ∧ s2.hit_no = s.hit_no ∧ s2.res = s.res
      ∧ s2.pc = .receiving ∧ s2.out = s.out ∧ s2.client_qd = s.client_qd
      ∧ ((w2 = w ∧ s2.err = s.err ++ ["mq_write"])
          ∨ (∃ name q, s.client_qd = some name ∧ w.find name = some q ∧ s2.err = s.err
              ∧ w2 = { w with queues := pushTo name (replyMsg c s.res) w.queues })) := by
  unfold serverSend
  cases h : mq_send w s.client_qd (replyMsg c s.res) with
  | blocked => exact Or.inl rfl
  | error => exact Or.inr ⟨_, _, rfl, rfl, rfl, rfl, rfl, rfl, Or.inl ⟨rfl, rfl⟩⟩
  | ok w1 =>
    obtain ⟨name, q, hqd, hq, -, -, hw⟩ := mq_send_ok w w1 _ _ h
    exact Or.inr ⟨_, _, rfl, rfl, rfl, rfl, rfl, rfl, Or.inr ⟨name, q, hqd, hq, rfl, hw⟩⟩

theorem serverSend_not_blocked (c : Includes) (s : Server) (w : World)
    (h : sendBlocks w s.client_qd c.sizeof_svres = false) : serverSend c s w ≠ .blocked := by
  intro hb
  unfold serverSend at hb
  cases hs : mq_send w s.client_qd (replyMsg c s.res) with
  | blocked =>
    have := (mq_send_blocked_iff w s.client_qd (replyMsg c s.res)).1 hs
    simp only [replyMsg] at this
    rw [h] at this
    exact Bool.noConfusion this
  | error => simp [hs] at hb
  | ok w1 => simp [hs] at hb

/-- What one turn of the server does to its counter and its reply object, whatever the
namespace: a discarded return leaves both, a request of the record size advances the
counter by one. -/
theorem serverIter_counter (c : Includes) (s s2 : Server) (rv : Recv) (w w2 : World)
    (h : serverIter c s rv w = .next s2 w2) :
    s2.res.buffer.length = s.res.buffer.length ∧
    s2.hit_no = if rv.framed c then toInt32 (s.hit_no + 1) else s.hit_no := by
  cases rv with
  | error =>
    rw [serverIter_error] at h
    cases h
    exact ⟨rfl, rfl⟩
  | data m =>
    by_cases hm : m.len = c.sizeof_svreq
    · have hf : Recv.framed c (.data m) = true := by simp [Recv.framed, hm]
      rw [hf, if_pos rfl]
      rcases serverRecv_framed_cases c s m w hm with hu | ⟨s1, h1, hpc, hk, -, -, hl⟩
      · simp [serverIter, hu] at h
      · rw [serverIter_of_recv c s s1 m w h1 hpc] at h
        rcases serverSend_cases c s1 w with hb | ⟨s3, w3, h3, hk3, hr3, -⟩
        · rw [hb] at h; cases h
        · rw [h3] at h
          cases h
          exact ⟨by rw [hr3, hl], by rw [hk3, hk]⟩
    · have hf : Recv.framed c (.data m) = false := by simp [Recv.framed, hm]
      rw [hf]
      rw [serverIter_discard c s m w hm] at h
      cases h
      exact ⟨rfl, by simp⟩

theorem framedCount_cons (c : Includes) (e : Recv × World) (evs : List (Recv × World)) :
    framedCount c (e :: evs) = (if e.1.framed c then 1 else 0) + framedCount c evs := by
  unfold framedCount
  rw [List.filter_cons]
  split_ifs
  · rw [List.length_cons]; omega
  · omega

/-- The counter after a run that the server got through: it has advanced by the number of
requests of the record size. -/
theorem serverRun_counter (c : Includes) : ∀ (evs : List (Recv × World)) (s s2 : Server)
    (w w2 : World), serverRun c s w evs = .next s2 w2 → 0 ≤ s.hit_no →
    s.hit_no + framedCount c evs < 2 ^ 31 →
    s2.hit_no = s.hit_no + framedCount c evs ∧ s2.res.buffer.length = s.res.buffer.length := by
  intro evs
  induction evs with
  | nil =>
    intro s s2 w w2 h _ _
    simp only [serverRun] at h
    cases h
    simp [framedCount]
  | cons e evs ih =>
    intro s s2 w w2 h h0 hlt
    obtain ⟨rv, w1⟩ := e
    simp only [serverRun] at h
    rw [framedCount_cons] at hlt ⊢
    cases hi : serverIter c s rv w1 with
    | blocked => simp [hi] at h
    | undefined => simp [hi] at h
    | next s1 w3 =>
      simp only [hi] at h
      obtain ⟨hl, hk⟩ := serverIter_counter c s s1 rv w1 w3 hi
      cases hf : rv.framed c with
      | true =>
        rw [hf] at hk hlt
        simp only [if_true] at hk hlt ⊢
        have hk1 : s1.hit_no = s.hit_no + 1 := by
          rw [hk]; exact toInt32_succ _ h0 (by push_cast at hlt; omega)
        obtain ⟨r1, r2⟩ := ih s1 s2 w3 w2 h (by omega) (by rw [hk1]; push_cast at hlt ⊢; omega)
        exact ⟨by rw [r1, hk1]; push_cast; omega, by rw [r2, hl]⟩
      | false =>
        rw [hf] at hk hlt
        simp only [Bool.false_eq_true, if_false, Nat.zero_add] at hk hlt ⊢
        obtain ⟨r1, r2⟩ := ih s1 s2 w3 w2 h (by omega) (by rw [hk]; exact hlt)
        exact ⟨by rw [r1, hk], by rw [r2, hl]⟩


theorem replyText_fits (c : Includes) (s : Server) (e : Nat) (he : 0 < e)
    (hM : 18 + e ≤ c.MSG_MAX_SIZE) (hl : s.res.buffer.length = c.MSG_MAX_SIZE + 1)
    (h0 : 0 ≤ s.hit_no) (hk : s.hit_no < 10 ^ e) :
    (replyText s.hit_no).length < s.res.buffer.length := by
  rw [replyText_length, hl]
  have := fmtInt_length_le s.hit_no e he h0 hk
  omega

theorem serverIter_total (c : Includes) (s : Server) (rv : Recv) (w : World)
    (hfit : (replyText s.hit_no).length < s.res.buffer.length)
    (hnb : replyBlocks c (rv, w) = false) :
    ∃ s2 w2, serverIter c s rv w = .next s2 w2 := by
  cases rv with
  | error => exact ⟨_, _, serverIter_error c s w⟩
  | data m =>
    by_cases hm : m.len = c.sizeof_svreq
    · have h1 := serverRecv_framed c s m w hm hfit
      rw [serverIter_of_recv c s _ m w h1 rfl]
      have hb : sendBlocks w (mq_open_wronly w (replyName c m)) c.sizeof_svres = false := by
        simpa [replyBlocks, hm] using hnb
      rcases serverSend_cases c
          { s with req := terminate c m.asReq,
                   client_qd := mq_open_wronly w (replyName c m),
                   res := { buffer := replyText s.hit_no ++ NUL ::
                              s.res.buffer.drop ((replyText s.hit_no).length + 1) },
                   hit_no := toInt32 (s.hit_no + 1), pc := .sending,
                   out := s.out ++ [serverLog s.hit_no (terminate c m.asReq)],
                   err := if mq_open_wronly w (replyName c m) = none
                          then s.err ++ ["mq_open:client"] else s.err } w
        with hbl | ⟨s3, w3, h3, -⟩
      · exact absurd hbl (serverSend_not_blocked c _ w hb)
      · exact ⟨s3, w3, h3⟩
    · exact ⟨_, _, serverIter_discard c s m w hm⟩

/-- The server gets through every run in which each reply fits the reply object and no
send finds its queue at capacity. -/
theorem serverRun_total (c : Includes) (e : Nat) (he : 0 < e)
    (hM : 18 + e ≤ c.MSG_MAX_SIZE) : ∀ (evs : List (Recv × World)) (s : Server) (w : World),
    s.res.buffer.length = c.MSG_MAX_SIZE + 1 → 0 ≤ s.hit_no →
    s.hit_no + framedCount c evs ≤ 10 ^ e →
    s.hit_no + framedCount c evs < 2 ^ 31 →
    (∀ ev ∈ evs, replyBlocks c ev = false) →
    ∃ s2 w2, serverRun c s w evs = .next s2 w2 := by
  intro evs
  induction evs with
  | nil => intro s w _ _ _ _ _; exact ⟨s, w, rfl⟩
  | cons ev evs ih =>
    intro s w hl h0 h10 h31 hnb
    obtain ⟨rv, w1⟩ := ev
    rw [framedCount_cons] at h10 h31
    simp only [serverRun]
    cases hf : rv.framed c with
    | false =>
      rw [hf] at h10 h31
      simp only [Bool.false_eq_true, if_false, Nat.zero_add] at h10 h31
      have hi : ∃ s1 w3, serverIter c s rv w1 = .next s1 w3 := by
        cases rv with
        | error => exact ⟨_, _, serverIter_error c s w1⟩
        | data m =>
          have hm : m.len ≠ c.sizeof_svreq := by simpa [Recv.framed] using hf
          exact ⟨_, _, serverIter_discard c s m w1 hm⟩
      obtain ⟨s1, w3, hi⟩ := hi
      obtain ⟨hl1, hk1⟩ := serverIter_counter c s s1 rv w1 w3 hi
      rw [hf] at hk1
      simp only [Bool.false_eq_true, if_false] at hk1
      rw [hi]
      exact ih s1 w3 (by rw [hl1, hl]) (by rw [hk1]; exact h0) (by rw [hk1]; exact h10)
        (by rw [hk1]; exact h31) (fun ev hev => hnb ev (List.mem_cons_of_mem _ hev))
    | true =>
      rw [hf] at h10 h31
      simp only [if_true] at h10 h31
      push_cast at h10 h31
      have hfit := replyText_fits c s e he hM hl h0 (by omega)
      obtain ⟨s1, w3, hi⟩ := serverIter_total c s rv w1 hfit (hnb _ (List.mem_cons_self _ _))
      obtain ⟨hl1, hk1⟩ := serverIter_counter c s s1 rv w1 w3 hi
      rw [hf] at hk1
      simp only [if_true] at hk1
      rw [toInt32_succ _ h0 (by omega)] at hk1
      rw [hi]
      exact ih s1 w3 (by rw [hl1, hl]) (by rw [hk1]; omega) (by rw [hk1]; omega)
        (by rw [hk1]; omega) (fun ev hev => hnb ev (List.mem_cons_of_mem _ hev))

theorem serverStart_fresh (c : Includes) (req0 : svreq) (res0 : svres) (w : World) :
    (serverStart c req0 res0 w).1.hit_no = 1 ∧
    (serverStart c req0 res0 w).1.res.buffer.length = c.MSG_MAX_SIZE + 1 := by
  unfold serverStart
  simp only
  split_ifs <;> exact ⟨rfl, array_length _ _⟩

/-! ## The queue name (C9) and the payload (C3) -/

/-- C9 (as amended): under the assertion of line 90, when `QNAME_MAX_SIZE` is at least 5
(so that `QNAME_MAX_SIZE - 5` is not negative), for every process id from 1 to 99999 (at
most five decimal digits), the queue name the client derives is at most `QNAME_MAX_SIZE`
characters long, `sprintf` stores it with its terminator inside the `qname` field, and
the server's termination at index `QNAME_MAX_SIZE` does not cut it. -/
theorem C9_qname_fits (c : Includes) (pid : Int) (g : svreq)
    (hassert : startupAssert c = true) (h5 : 5 ≤ c.QNAME_MAX_SIZE)
    (hpos : 0 < pid) (hmax : pid ≤ 99999) :
    (clientQname pid).length ≤ c.QNAME_MAX_SIZE ∧
    ∃ qn, sprintf (newReq c g).qname (clientQname pid) = some qn ∧
      qn.length = c.QNAME_MAX_SIZE + 1 ∧ cstr qn = clientQname pid ∧
      cstr (qn.set c.QNAME_MAX_SIZE NUL) = clientQname pid := by
  have hQ := startupAssert_le c hassert h5
  have hd : (fmtInt pid).length ≤ 5 := fmtInt_length_le pid 5 (by decide) (by omega) (by omega)
  have hl : (clientQname pid).length ≤ c.QNAME_MAX_SIZE := by
    rw [clientQname_length]; omega
  have hdst : (newReq c g).qname.length = c.QNAME_MAX_SIZE + 1 := array_length _ _
  refine ⟨hl, _, sprintf_fits _ _ (by omega), ?_, ?_, ?_⟩
  · simp only [List.length_append, List.length_cons, List.length_drop]
    omega
  · exact cstr_append_nul _ _ (clientQname_not_mem_nul pid)
  · exact cstr_set_after _ _ _ (clientQname_not_mem_nul pid) hl

/-- Witness of C9: the header `demo` and the process id 4242. -/
theorem C9_qname_fits_witness :
    startupAssert demo = true ∧ 5 ≤ demo.QNAME_MAX_SIZE ∧ (0 : Int) < 4242 ∧
    (4242 : Int) ≤ 99999 ∧
    (clientQname 4242).length ≤ demo.QNAME_MAX_SIZE ∧
    ∃ qn, sprintf (newReq demo junkReq).qname (clientQname 4242) = some qn ∧
      qn.length = demo.QNAME_MAX_SIZE + 1 ∧ cstr qn = clientQname 4242 ∧
      cstr (qn.set demo.QNAME_MAX_SIZE NUL) = clientQname 4242 :=
  ⟨by decide, by decide, by decide, by decide,
    C9_qname_fits demo 4242 junkReq (by decide) (by decide) (by decide) (by decide)⟩

/-- Counterexample to C9 as stated, at two headers. With `QNAME_MAX_SIZE = 26` the
assertion of line 90 holds (20 < 21), and for the process id 100000 the derived name has
27 characters, more than `QNAME_MAX_SIZE`, so that `sprintf` writes past the end of the
`qname` field. With `QNAME_MAX_SIZE = 4` the difference `QNAME_MAX_SIZE - 5` is negative,
the unsigned comparison of line 90 holds all the same, and the name of process 1, of 22
characters, does not fit the field of 5. -/
theorem C9_counterexample :
    (startupAssert tight = true ∧ (0 : Int) < 100000 ∧
      ¬ ((clientQname 100000).length ≤ tight.QNAME_MAX_SIZE) ∧
      sprintf (newReq tight junkReq).qname (clientQname 100000) = none) ∧
    (startupAssert tiny = true ∧ (0 : Int) < 1 ∧
      ¬ ((clientQname 1).length ≤ tiny.QNAME_MAX_SIZE) ∧
      sprintf (newReq tiny junkReq).qname (clientQname 1) = none) := by
  decide

theorem replyText_ofNat (k : Nat) :
    replyText (k : Int) = "Your message id = ".toList ++ Nat.toDigits 10 k := rfl

theorem serverSend_bad (c : Includes) (s : Server) (w : World) (h : s.client_qd = none) :
    serverSend c s w = .next { s with err := s.err ++ ["mq_write"], pc := .receiving } w := by
  simp [serverSend, h, mq_send]

/-- C5: a receive on the well-known queue that returns an error, or a length other than
the size of the request record, is discarded: the server logs `mq_receive` and is back at
the receive, with the namespace unchanged (no reply sent) and the counter, the reply
object and the standard output unchanged; a length of exactly the record size is
processed as a request: the request is logged and the counter advances. -/
theorem C5_discard_misframed (c : Includes) (s : Server) (w : World) :
    serverIter c s .error w
      = .next { s with err := s.err ++ ["mq_receive"], pc := .receiving } w ∧
    (∀ m : Msg, m.len ≠ c.sizeof_svreq →
      serverIter c s (.data m) w
        = .next { s with req := m.asReq, err := s.err ++ ["mq_receive"],
                         pc := .receiving } w) ∧
    (∀ rv : Recv, rv.framed c = false →
      ∃ s2, serverIter c s rv w = .next s2 w ∧ s2.hit_no = s.hit_no ∧ s2.res = s.res
        ∧ s2.out = s.out ∧ s2.err = s.err ++ ["mq_receive"] ∧ s2.pc = .receiving) ∧
    (∀ m : Msg, m.len = c.sizeof_svreq →
      serverRecv c s (.data m) w = .undefined ∨
      ∃ s1, serverRecv c s (.data m) w = .next s1 w ∧ s1.pc = .sending
        ∧ s1.hit_no = toInt32 (s.hit_no + 1)
        ∧ s1.out = s.out ++ [serverLog s.hit_no (terminate c m.asReq)]) := by
  refine ⟨serverIter_error c s w, fun m hm => serverIter_discard c s m w hm, ?_, ?_⟩
  · intro rv hrv
    cases rv with
    | error => exact ⟨_, serverIter_error c s w, rfl, rfl, rfl, rfl, rfl⟩
    | data m =>
      have hm : m.len ≠ c.sizeof_svreq := by simpa [Recv.framed] using hrv
      exact ⟨_, serverIter_discard c s m w hm, rfl, rfl, rfl, rfl, rfl⟩
  · intro m hm
    rcases serverRecv_framed_cases c s m w hm with h | ⟨s1, h1, h2, h3, h4, -⟩
    · exact Or.inl h
    · exact Or.inr ⟨s1, h1, h2, h3, h4⟩

/-- C7: when the queue named by a request of the record size does not exist, the server
logs the failed open, sends nothing (the send on the bad descriptor fails and is logged,
the namespace is unchanged), does not end, and is back at the receive. -/
theorem C7_open_failure (c : Includes) (s : Server) (m : Msg) (w : World)
    (hm : m.len = c.sizeof_svreq) (hopen : w.find (replyName c m) = none)
    (hfit : (replyText s.hit_no).length < s.res.buffer.length) :
    ∃ s2, serverIter c s (.data m) w = .next s2 w ∧ s2.pc = .receiving
      ∧ s2.client_qd = none
      ∧ s2.err = s.err ++ ["mq_open:client", "mq_write"]
      ∧ s2.out = s.out ++ [serverLog s.hit_no (terminate c m.asReq)] := by
  have h1 := serverRecv_framed c s m w hm hfit
  have ho : mq_open_wronly w (replyName c m) = none := by simp [mq_open_wronly, hopen]
  rw [serverIter_of_recv c s _ m w h1 rfl, serverSend_bad c _ w ho]
  exact ⟨_, rfl, rfl, ho, by simp [ho], rfl⟩

/-- Witness of C7: the started server of `demo` receives the request of a client whose
reply queue is gone. -/
theorem C7_open_failure_witness :
    goneMsg.len = demo.sizeof_svreq ∧ demoWorld.find (replyName demo goneMsg) = none ∧
    ∃ s2, serverIter demo demoServer (.data goneMsg) demoWorld = .next s2 demoWorld
      ∧ s2.pc = .receiving ∧ s2.client_qd = none
      ∧ s2.err = demoServer.err ++ ["mq_open:client", "mq_write"]
      ∧ s2.out = demoServer.out ++ [serverLog demoServer.hit_no (terminate demo goneMsg.asReq)] :=
  ⟨by decide, by decide,
    C7_open_failure demo demoServer goneMsg demoWorld (by decide) (by decide) (by decide)⟩

theorem framedCount_take_le (c : Includes) (evs : List (Recv × World)) (n : Nat) :
    framedCount c (evs.take n) ≤ framedCount c evs := by
  unfold framedCount
  exact ((List.take_sublist n evs).filter _).length_le

/-- C10: from a fresh start the server gets through every run whose replies fit the reply
object and find room, and after any number of the returns of its receive the counter is
one more than the number of requests of the record size among them, so that the ids
given are 1, 2, 3, ... in receipt order and none is given twice; and for each such
request the counter advances by exactly one when the request has been taken, in every
namespace: whether its reply queue could be opened or not, and whether the send of the
reply succeeded, failed or is still blocked. -/
theorem C10_counter_advances (c : Includes) (req0 : svreq) (res0 : svres) (w0 wq : World)
    (evs : List (Recv × World)) (e : Nat) (he : 0 < e) (hM : 18 + e ≤ c.MSG_MAX_SIZE)
    (h10 : framedCount c evs < 10 ^ e) (h31 : framedCount c evs + 1 < 2 ^ 31)
    (hnb : ∀ ev ∈ evs, replyBlocks c ev = false) :
    (∀ n : Nat, ∃ s w,
      serverRun c (serverStart c req0 res0 w0).1 wq (evs.take n) = .next s w
      ∧ s.hit_no = framedCount c (evs.take n) + 1) ∧
    (∀ (s : Server) (m : Msg) (w : World), m.len = c.sizeof_svreq →
      (replyText s.hit_no).length < s.res.buffer.length →
      (∃ s1, serverRecv c s (.data m) w = .next s1 w ∧ s1.hit_no = toInt32 (s.hit_no + 1)) ∧
      (serverIter c s (.data m) w = .blocked ∨
        ∃ s2 w2, serverIter c s (.data m) w = .next s2 w2
          ∧ s2.hit_no = toInt32 (s.hit_no + 1))) := by
  obtain ⟨hk, hl⟩ := serverStart_fresh c req0 res0 w0
  constructor
  · intro n
    have hle := framedCount_take_le c evs n
    have h10z : (1 : Int) + (framedCount c (evs.take n) : Int) ≤ 10 ^ e := by
      have : framedCount c (evs.take n) + 1 ≤ 10 ^ e := by omega
      have h2 : ((framedCount c (evs.take n) + 1 : Nat) : Int) ≤ ((10 ^ e : Nat) : Int) :=
        Int.ofNat_le.2 this
      push_cast at h2
      omega
    have h31z : (1 : Int) + (framedCount c (evs.take n) : Int) < 2 ^ 31 := by
      have : framedCount c (evs.take n) + 1 < 2 ^ 31 := by omega
      have h2 : ((framedCount c (evs.take n) + 1 : Nat) : Int) < ((2 ^ 31 : Nat) : Int) :=
        Int.ofNat_lt.2 this
      push_cast at h2
      omega
    obtain ⟨s, w, hrun⟩ := serverRun_total c e he hM (evs.take n)
      (serverStart c req0 res0 w0).1 wq hl (by rw [hk]; decide) (by rw [hk]; exact h10z)
      (by rw [hk]; exact h31z) (fun ev hev => hnb ev (List.mem_of_mem_take hev))
    obtain ⟨hc, -⟩ := serverRun_counter c (evs.take n) _ s wq w hrun (by rw [hk]; decide)
      (by rw [hk]; exact h31z)
    exact ⟨s, w, hrun, by rw [hc, hk]; omega⟩
  · intro s m w hm hfit
    have h1 := serverRecv_framed c s m w hm hfit
    refine ⟨⟨_, h1, rfl⟩, ?_⟩
    rw [serverIter_of_recv c s _ m w h1 rfl]
    rcases serverSend_cases c _ w with hb | ⟨s3, w3, h3, hk3, -⟩
    · exact Or.inl hb
    · exact Or.inr ⟨s3, w3, h3, by rw [hk3]⟩

/-- Witness of C10: the started server of `demo` receives the request of a client whose
reply queue is gone, and then the request of `helloClient`: the counter ends at 3, and
the only id delivered is the second one, so that the ids delivered have a gap. -/
theorem C10_counter_advances_witness :
    (∃ s w, serverRun demo (serverStart demo junkReq junkRes emptyWorld).1 demoWorld
          ([(Recv.data goneMsg, demoWorld), (Recv.data helloMsg, helloWorld)].take 2)
          = .next s w
        ∧ s.hit_no = framedCount demo
            ([(Recv.data goneMsg, demoWorld), (Recv.data helloMsg, helloWorld)].take 2) + 1) ∧
    ((serverRun demo demoServer demoWorld
        [(.data goneMsg, demoWorld), (.data helloMsg, helloWorld)]).state demoServer).hit_no = 3 ∧
    ((serverRun demo demoServer demoWorld
        [(.data goneMsg, demoWorld), (.data helloMsg, helloWorld)]).world demoWorld).queues.map
        (fun q => (q.name, q.msgs.map (fun m => cstr m.asRes.buffer)))
      = [(demo.SERVER_QNAME, []), (clientQname 4242, ["Your message id = 2".toList])] :=
  ⟨(C10_counter_advances demo junkReq junkRes emptyWorld demoWorld
      [(.data goneMsg, demoWorld), (.data helloMsg, helloWorld)] 2 (by decide) (by decide)
      (by decide) (by decide) (by decide)).1 2,
    by decide, by decide⟩

/-- C1: for a server started afresh (counter 1) that has got through the returns `pre` of
its receive, the next request of exactly the record size, the `k`-th one, is assigned the
id `k` and answered with the payload `Your message id = k`: that is the string of the
reply object the server prepares and the string the client reads in it; the reply goes on
the descriptor opened from the request's queue name, and when that queue exists with room
the reply is appended to it and the server is back at its receive. -/
theorem C1_kth_reply (c : Includes) (req0 : svreq) (res0 : svres) (w0 wq wl w : World)
    (pre : List (Recv × World)) (s : Server) (m : Msg) (e : Nat)
    (hrun : serverRun c (serverStart c req0 res0 w0).1 wq pre = .next s wl)
    (hm : m.len = c.sizeof_svreq) (he : 0 < e) (hM : 18 + e ≤ c.MSG_MAX_SIZE)
    (h10 : framedCount c pre + 1 < 10 ^ e) (h31 : framedCount c pre + 1 < 2 ^ 31) :
    s.hit_no = framedCount c pre + 1 ∧
    ∃ s1, serverRecv c s (.data m) w = .next s1 w
      ∧ cstr s1.res.buffer
          = "Your message id = ".toList ++ Nat.toDigits 10 (framedCount c pre + 1)
      ∧ cstr ((replyMsg c s1.res).asRes.buffer.set c.MSG_MAX_SIZE NUL)
          = "Your message id = ".toList ++ Nat.toDigits 10 (framedCount c pre + 1)
      ∧ s1.client_qd = mq_open_wronly w (replyName c m)
      ∧ ∀ q : Queue, w.find (replyName c m) = some q → c.sizeof_svres ≤ q.msgsize →
          q.msgs.length < q.maxmsg →
          ∃ s2, serverIter c s (.data m) w
              = .next s2 { w with queues := pushTo (replyName c m) (replyMsg c s1.res) w.queues }
            ∧ s2.pc = .receiving := by
  obtain ⟨hk, hl⟩ := serverStart_fresh c req0 res0 w0
  have h31z : (1 : Int) + (framedCount c pre : Int) < 2 ^ 31 := by
    have h2 : ((framedCount c pre + 1 : Nat) : Int) < ((2 ^ 31 : Nat) : Int) :=
      Int.ofNat_lt.2 h31
    push_cast at h2
    omega
  have h10z : (1 : Int) + (framedCount c pre : Int) < 10 ^ e := by
    have h2 : ((framedCount c pre + 1 : Nat) : Int) < ((10 ^ e : Nat) : Int) :=
      Int.ofNat_lt.2 h10
    push_cast at h2
    omega
  obtain ⟨hc, hlen⟩ := serverRun_counter c pre _ s wq wl hrun (by rw [hk]; decide)
    (by rw [hk]; exact h31z)
  rw [hk] at hc
  rw [hl] at hlen
  have hs : s.hit_no = ((framedCount c pre + 1 : Nat) : Int) := by rw [hc]; push_cast; omega
  have hfit : (replyText s.hit_no).length < s.res.buffer.length :=
    replyText_fits c s e he hM hlen (by rw [hc]; omega) (by rw [hc]; exact h10z)
  have h1 := serverRecv_framed c s m w hm hfit
  have htext : replyText s.hit_no
      = "Your message id = ".toList ++ Nat.toDigits 10 (framedCount c pre + 1) := by
    rw [hs]; exact replyText_ofNat _
  have hlenM : (replyText s.hit_no).length ≤ c.MSG_MAX_SIZE := by omega
  refine ⟨by rw [hc]; omega, _, h1, ?_, ?_, rfl, ?_⟩
  · rw [← htext]
    exact cstr_append_nul _ _ (replyText_not_mem_nul _)
  · rw [← htext]
    exact cstr_set_after _ _ _ (replyText_not_mem_nul _) hlenM
  · intro q hq hsz hroom
    rw [serverIter_of_recv c s _ m w h1 rfl]
    have ho : mq_open_wronly w (replyName c m) = some (replyName c m) := by
      simp [mq_open_wronly, hq]
    unfold serverSend
    simp only [ho]
    rw [mq_send_deliver w (replyName c m) q _ hq (by simpa [replyMsg] using hsz) hroom]
    exact ⟨_, rfl, rfl⟩

/-- Witness of C1: against the started server of `demo`, the client run with `hello` is
told `Your message id = 1` and the client run after it with `world` is told
`Your message id = 2`; the second request is the one the theorem is applied to. -/
theorem C1_kth_reply_witness :
    (exchange demo demoServer helloClient demoWorld).map (fun r => r.2.1.out)
      = some ["Process id = 4242\n Reply :- Your message id = 1\n\n"] ∧
    ((exchange demo demoServer helloClient demoWorld).bind
        (fun r => exchange demo r.1 worldClient r.2.2)).map (fun r => r.2.1.out)
      = some ["Process id = 4243\n Reply :- Your message id = 2\n\n"] ∧
    ((serverRun demo demoServer demoWorld [(.data helloMsg, helloWorld)]).state demoServer).hit_no
      = framedCount demo [(.data helloMsg, helloWorld)] + 1 ∧
    ∃ s1, serverRecv demo
        ((serverRun demo demoServer demoWorld [(.data helloMsg, helloWorld)]).state demoServer)
        (.data goneMsg) demoWorld = .next s1 demoWorld
      ∧ cstr s1.res.buffer = "Your message id = 2".toList :=
  ⟨by decide, by decide,
    (C1_kth_reply demo junkReq junkRes emptyWorld demoWorld
      ((serverRun demo demoServer demoWorld [(.data helloMsg, helloWorld)]).world demoWorld)
      demoWorld [(.data helloMsg, helloWorld)]
      ((serverRun demo demoServer demoWorld [(.data helloMsg, helloWorld)]).state demoServer)
      goneMsg 2 (by decide) (by decide) (by decide) (by decide) (by decide) (by decide)).1,
    (C1_kth_reply demo junkReq junkRes emptyWorld demoWorld
      ((serverRun demo demoServer demoWorld [(.data helloMsg, helloWorld)]).world demoWorld)
      demoWorld [(.data helloMsg, helloWorld)]
      ((serverRun demo demoServer demoWorld [(.data helloMsg, helloWorld)]).state demoServer)
      goneMsg 2 (by decide) (by decide) (by decide) (by decide) (by decide) (by decide)).2.imp
      (fun _ h => ⟨h.1, h.2.1⟩)⟩

/-! ## The client: its payload (C3), a missing server (C6), its input (C4) -/

theorem toInt32_le (n : Nat) : toInt32 (n : Int) ≤ (n : Int) := by
  unfold toInt32
  norm_num
  omega

theorem toInt32_of_lt (n : Nat) (h : n < 2 ^ 31) : toInt32 (n : Int) = (n : Int) := by
  unfold toInt32
  norm_num at h ⊢
  omega

theorem mq_open_wronly_absent (w : World) (name : List Char) (h : w.find name = none) :
    mq_open_wronly w name = none := by
  simp [mq_open_wronly, h]

/-- C6: when the well-known queue does not exist and the argument is valid, the client
ends at the open of the well-known queue with a diagnostic and the status `EXIT_FAILURE`,
which is not zero; it has no descriptor of a reply queue, and the namespace is as it
was: no reply queue has been created. -/
theorem C6_server_absent (c : Includes) (prog arg : List Char) (rest : List (List Char))
    (pid : Int) (req0 : svreq) (res0 : svres) (w : World)
    (hassert : startupAssert c = true) (hvalid : strlen arg ≤ c.MSG_MAX_SIZE)
    (hsrv : w.find c.SERVER_QNAME = none) :
    clientStart c (newClient c (prog :: arg :: rest) pid req0 res0) w
      = .next { newClient c (prog :: arg :: rest) pid req0 res0 with
                err := ["mq_open:server"], pc := .exited EXIT_FAILURE } w ∧
    (∀ n : Nat, ∃ cl, clientRun c (n + 1) (newClient c (prog :: arg :: rest) pid req0 res0) w
        = .next cl w ∧ cl.pc = .exited EXIT_FAILURE ∧ cl.err = ["mq_open:server"]
          ∧ cl.my_qd = none ∧ cl.out = []) ∧
    EXIT_FAILURE ≠ 0 ∧
    (w.find (clientQname pid) = none →
      ∀ n : Nat, ((clientRun c n (newClient c (prog :: arg :: rest) pid req0 res0) w).world
        w).find (clientQname pid) = none) := by
  have hlen : ¬ (toInt32 (strlen arg) > (c.MSG_MAX_SIZE : Int)) := by
    have := toInt32_le (strlen arg)
    have h2 : ((strlen arg : Nat) : Int) ≤ (c.MSG_MAX_SIZE : Int) := Int.ofNat_le.2 hvalid
    omega
  have hstart : clientStart c (newClient c (prog :: arg :: rest) pid req0 res0) w
      = .next { newClient c (prog :: arg :: rest) pid req0 res0 with
                err := ["mq_open:server"], pc := .exited EXIT_FAILURE } w := by
    unfold clientStart
    simp only [hassert, newClient, mq_open_wronly_absent w _ hsrv, if_neg hlen]
    simp
  have hrun : ∀ n : Nat, clientRun c (n + 1) (newClient c (prog :: arg :: rest) pid req0 res0) w
      = .next { newClient c (prog :: arg :: rest) pid req0 res0 with
                err := ["mq_open:server"], pc := .exited EXIT_FAILURE } w := by
    intro n
    have hstep : clientStep c (newClient c (prog :: arg :: rest) pid req0 res0) w
        = clientStart c (newClient c (prog :: arg :: rest) pid req0 res0) w := rfl
    simp only [clientRun, hstep, hstart]
    induction n with
    | zero => rfl
    | succ n ih => simp only [clientRun, clientStep]; exact ih
  refine ⟨hstart, fun n => ⟨_, hrun n, rfl, rfl, rfl, rfl⟩, by decide, fun hq n => ?_⟩
  cases n with
  | zero => exact hq
  | succ n => rw [hrun n]; exact hq

/-- Witness of C6: `helloClient` run in a namespace with no queue. -/
theorem C6_server_absent_witness :
    startupAssert demo = true ∧ strlen "hello".toList ≤ demo.MSG_MAX_SIZE ∧
    emptyWorld.find demo.SERVER_QNAME = none ∧
    clientStart demo helloClient emptyWorld
      = .next { helloClient with err := ["mq_open:server"], pc := .exited EXIT_FAILURE }
          emptyWorld :=
  ⟨by decide, by decide, by decide,
    (C6_server_absent demo "client".toList "hello".toList [] 4242
        junkReq junkRes emptyWorld (by decide) (by decide) (by decide)).1⟩

/-- C4: the client rejects its input exactly when there is no argument or the argument is
longer than `MSG_MAX_SIZE`. On a rejected input it ends with one of the two diagnostics
and the status `EXIT_FAILURE`, the same way in every namespace and leaving the namespace
and its descriptors as they were: no queue is opened, created or written. On any other
input the client goes on to the transport calls, and when it ends at this stage it is on
a failed open of a queue. -/
theorem C4_input_rejection (c : Includes) (cl : Client)
    (hassert : startupAssert c = true)
    (hint : ∀ prog arg rest, cl.argv = prog :: arg :: rest → strlen arg < 2 ^ 31) :
    ((cl.argv.length < 2 ∨
        ∃ prog arg rest, cl.argv = prog :: arg :: rest ∧ c.MSG_MAX_SIZE < strlen arg) →
      ∃ msg, (msg = "No message!" ∨ msg = "Message size limit exceeded!") ∧
        ∀ w : World, clientStart c cl w
          = .next { cl with err := cl.err ++ [msg], pc := .exited EXIT_FAILURE } w) ∧
    (¬ (cl.argv.length < 2 ∨
        ∃ prog arg rest, cl.argv = prog :: arg :: rest ∧ c.MSG_MAX_SIZE < strlen arg) →
      ∀ (w w1 : World) (cl1 : Client), clientStart c cl w = .next cl1 w1 →
        cl1.pc = .sending ∨
        (cl1.pc = .exited EXIT_FAILURE ∧
          (cl1.err = cl.err ++ ["mq_open:server"] ∨ cl1.err = cl.err ++ ["mq_open:client"]))) ∧
    EXIT_FAILURE ≠ 0 := by
  refine ⟨?_, ?_, by decide⟩
  · rintro (hshort | ⟨prog, arg, rest, hargv, hlong⟩)
    · refine ⟨"No message!", Or.inl rfl, fun w => ?_⟩
      unfold clientStart
      match h : cl.argv with
      | [] => simp [hassert]
      | [_] => simp [hassert]
      | _ :: _ :: _ => exfalso; rw [h] at hshort; simp only [List.length_cons] at hshort; omega
    · refine ⟨"Message size limit exceeded!", Or.inr rfl, fun w => ?_⟩
      have h31 := hint prog arg rest hargv
      have hgt : toInt32 (strlen arg) > (c.MSG_MAX_SIZE : Int) := by
        rw [toInt32_of_lt _ h31]
        exact Int.ofNat_lt.2 hlong
      unfold clientStart
      rw [hargv]
      simp [hassert, hgt]
  · intro hnot w w1 cl1 h
    unfold clientStart at h
    rw [if_neg (by simp [hassert])] at h
    split at h
    · rename_i prog arg rest hargv
      have h31 := hint prog arg rest hargv
      have hle : ¬ (toInt32 (strlen arg) > (c.MSG_MAX_SIZE : Int)) := by
        rw [toInt32_of_lt _ h31]
        intro hgt
        exact hnot (Or.inr ⟨prog, arg, rest, hargv, Int.ofNat_lt.1 hgt⟩)
      dsimp only at h
      rw [if_neg hle] at h
      split_ifs at h with hsrv
      · cases h
        exact Or.inr ⟨rfl, Or.inl rfl⟩
      · split at h
        · cases h
        · split_ifs at h with hcr
          · cases h
            exact Or.inr ⟨rfl, Or.inr rfl⟩
          · cases h
            exact Or.inl rfl
    · rename_i hdef
      exfalso
      apply hnot
      left
      match h2 : cl.argv with
      | [] => simp
      | [_] => simp
      | a :: b :: r => exact absurd h2 (hdef a b r)

/-- Witness of C4: a client of `demo` run with an argument of `MSG_MAX_SIZE + 1`
characters is rejected, and `fullClient`, whose argument has `MSG_MAX_SIZE` characters,
is not: it goes on to create its reply queue. -/
theorem C4_input_rejection_witness :
    (∃ msg, (msg = "No message!" ∨ msg = "Message size limit exceeded!") ∧
        ∀ w : World, clientStart demo
            (newClient demo ["client".toList, "0123456789abcdef0123456789abcdefX".toList] 4245
              junkReq junkRes) w
          = .next { newClient demo
                      ["client".toList, "0123456789abcdef0123456789abcdefX".toList] 4245
                      junkReq junkRes with
                    err := [msg], pc := .exited EXIT_FAILURE } w) ∧
    ((clientStart demo fullClient demoWorld).state fullClient).pc = .sending :=
  ⟨(C4_input_rejection demo
      (newClient demo ["client".toList, "0123456789abcdef0123456789abcdefX".toList] 4245
        junkReq junkRes)
      (by decide)
      (by
        intro prog arg rest h
        simp only [newClient, List.cons.injEq] at h
        obtain ⟨-, rfl, -⟩ := h
        decide)).1
      (Or.inr ⟨_, _, _, rfl, by decide⟩),
    by decide⟩

/-! ## The reply queue: its lifetime (C8) and the addressing of replies (C2) -/

theorem find_mq_unlink (w : World) (name : List Char) : (mq_unlink w name).find name = none := by
  unfold mq_unlink World.find
  simp only
  rw [List.find?_eq_none]
  intro q hq
  have := (List.mem_filter.1 hq).2
  simpa using this

theorem mq_open_creat_find (w : World) (name : List Char) (a b : Nat)
    (h : (mq_open_creat w name a b).1 = some name) :
    ((mq_open_creat w name a b).2.find name).isSome := by
  unfold mq_open_creat at h ⊢
  by_cases h1 : (w.find name).isSome = true
  · rw [if_pos h1]; exact h1
  · rw [if_neg h1] at h ⊢
    by_cases h2 : a = 0 ∨ b = 0 ∨ w.queues_max ≤ w.queues.length
    · rw [if_pos h2] at h; simp at h
    · rw [if_neg h2]
      have hn : List.find? (fun q => q.name == name) w.queues = none := by
        simpa [World.find] using h1
      simp [World.find, List.find?_append, hn]

/-- The reply path of the client (lines 139 to 145): once a reply of the right size is
taken, the client ends with status 0 and its reply queue is no longer in the namespace. -/
theorem clientRecv_reply_unlinks (c : Includes) (cl : Client) (w w1 : World) (m : Msg)
    (hr : mq_receive w cl.my_qd (c.sizeof_svres + 1) = .data m w1)
    (hm : m.len = c.sizeof_svres) :
    ∃ cl2 w2, clientRecv c cl w = .next cl2 w2 ∧ cl2.pc = .exited 0
      ∧ w2.find (cstr cl.req.qname) = none := by
  unfold clientRecv
  simp only [hr, hm, ne_eq, not_true_eq_false, if_false]
  exact ⟨_, _, rfl, rfl, find_mq_unlink _ _⟩

/-- C8, the failing run: `helloClient` finds a well-known queue whose message size is
smaller than the request record. It creates its reply queue, the send of the request
fails, and the client ends with the status `EXIT_FAILURE` (lines 132 to 135) without
unlinking: its reply queue, absent before the run, is still in the namespace after it. -/
theorem C8_failed_send_leaks :
    staleWorld.find (clientQname 4242) = none ∧
    ((clientRun demo 1 helloClient staleWorld).state helloClient).pc = .sending ∧
    ((clientRun demo 2 helloClient staleWorld).state helloClient).pc = .exited EXIT_FAILURE ∧
    ((clientRun demo 2 helloClient staleWorld).state helloClient).err = ["mq_send"] ∧
    (((clientRun demo 2 helloClient staleWorld).world staleWorld).find (clientQname 4242)).isSome
      = true ∧
    clientRun demo 5 helloClient staleWorld = clientRun demo 2 helloClient staleWorld := by
  decide

theorem mq_send_error_size (w : World) (name : List Char) (q : Queue) (m : Msg)
    (hq : w.find name = some q) (h : mq_send w (some name) m = .error) :
    q.msgsize < m.len := by
  unfold mq_send at h
  simp only [hq] at h
  split_ifs at h with h1 h2
  exact h1

/-- Where one turn of the server for a request of the record size leaves the namespace:
the descriptor used is the one opened from the request's queue name; when no queue has
that name nothing changes; when a queue of that name takes messages of the reply size the
reply is appended to it; and every queue of another name is as it was. -/
theorem serverIter_delivery (c : Includes) (s s2 : Server) (m : Msg) (w w2 : World)
    (hm : m.len = c.sizeof_svreq) (h : serverIter c s (.data m) w = .next s2 w2) :
    s2.client_qd = mq_open_wronly w (replyName c m) ∧
    (w.find (replyName c m) = none → w2 = w) ∧
    (∀ q, w.find (replyName c m) = some q → c.sizeof_svres ≤ q.msgsize →
      w2.find (replyName c m) = some { q with msgs := q.msgs ++ [replyMsg c s2.res] }) ∧
    ∀ name, name ≠ replyName c m → w2.find name = w.find name := by
  rcases serverRecv_framed_cases c s m w hm with hu | ⟨s1, h1, hpc, -, -, hqd, -⟩
  · simp [serverIter, hu] at h
  · rw [serverIter_of_recv c s s1 m w h1 hpc] at h
    have hname : ∀ name, s1.client_qd = some name → name = replyName c m := by
      intro name hn
      rw [hqd] at hn
      unfold mq_open_wronly at hn
      split_ifs at hn
      exact (Option.some.inj hn).symm
    unfold serverSend at h
    cases hs : mq_send w s1.client_qd (replyMsg c s1.res) with
    | blocked => simp [hs] at h
    | error =>
      simp only [hs] at h
      cases h
      refine ⟨hqd, fun _ => rfl, ?_, fun _ _ => rfl⟩
      intro q hq hsz
      exfalso
      have ho : s1.client_qd = some (replyName c m) := by
        rw [hqd]; simp [mq_open_wronly, hq]
      rw [ho] at hs
      have := mq_send_error_size w _ q _ hq hs
      simp only [replyMsg] at this
      omega
    | ok w1 =>
      simp only [hs] at h
      cases h
      obtain ⟨name, q1, hn, hq1, -, -, hw⟩ := mq_send_ok w w2 _ _ hs
      have hnm := hname name hn
      subst hnm
      refine ⟨hqd, ?_, ?_, ?_⟩
      · intro hnone
        rw [hnone] at hq1
        cases hq1
      · intro q hq _
        rw [hw]
        exact find_pushTo_eq _ _ _ q hq
      · intro other hne
        rw [hw]
        exact find_pushTo_ne _ other _ _ hne

/-- C2 (as amended): two clients with distinct process ids derive distinct reply queue
names. For a client whose name is at most `QNAME_MAX_SIZE` characters long, the name it
creates its reply queue under and receives on is the name the server reads in its
request; the reply to its request is appended to its own queue when that queue takes
messages of the reply size, and the queue of a client with another process id is left as
it was. For every request of the record size the server sends on the descriptor opened
from the name it reads in the request: with no queue of that name nothing changes, a
queue of that name receives the reply, and every queue of another name is left as it
was. -/
theorem C2_reply_addressing (c : Includes) (pida pidb : Int) (hne : pida ≠ pidb) :
    clientQname pida ≠ clientQname pidb ∧
    (∀ (argv : List (List Char)) (req0 : svreq) (res0 : svres) (wa wa1 : World)
        (cl1 : Client),
      (clientQname pida).length ≤ c.QNAME_MAX_SIZE →
      clientStart c (newClient c argv pida req0 res0) wa = .next cl1 wa1 →
      cl1.pc = .sending →
      cl1.my_qd = some (clientQname pida) ∧
      (wa1.find (clientQname pida)).isSome ∧
      cstr cl1.req.qname = clientQname pida ∧
      replyName c (requestMsg c cl1.req) = clientQname pida ∧
      ∀ (s s2 : Server) (w w2 : World),
        serverIter c s (.data (requestMsg c cl1.req)) w = .next s2 w2 →
        w2.find (clientQname pidb) = w.find (clientQname pidb) ∧
        ∀ q, w.find (clientQname pida) = some q → c.sizeof_svres ≤ q.msgsize →
          w2.find (clientQname pida)
            = some { q with msgs := q.msgs ++ [replyMsg c s2.res] }) ∧
    (∀ (s s2 : Server) (m : Msg) (w w2 : World), m.len = c.sizeof_svreq →
      serverIter c s (.data m) w = .next s2 w2 →
      s2.client_qd = mq_open_wronly w (replyName c m) ∧
      (w.find (replyName c m) = none → w2 = w) ∧
      (∀ q, w.find (replyName c m) = some q → c.sizeof_svres ≤ q.msgsize →
        w2.find (replyName c m) = some { q with msgs := q.msgs ++ [replyMsg c s2.res] }) ∧
      ∀ name, name ≠ replyName c m → w2.find name = w.find name) := by
  have hnames : clientQname pida ≠ clientQname pidb :=
    fun h => hne (clientQname_injective pida pidb h)
  refine ⟨hnames, ?_, fun s s2 m w w2 hm h => serverIter_delivery c s s2 m w w2 hm h⟩
  intro argv req0 res0 wa wa1 cl1 hlen hstart hpc
  obtain ⟨prog, arg, rest, qn, -, -, -, -, hqn, hcr, hw1, hcl⟩ :=
    clientStart_sending c _ cl1 wa wa1 hstart hpc
  obtain ⟨-, hqneq⟩ := sprintf_eq_some _ _ _ hqn
  have hq1 : cstr qn = clientQname pida := by
    rw [hqneq]
    exact cstr_append_nul _ _ (clientQname_not_mem_nul pida)
  have hq2 : cstr (qn.set c.QNAME_MAX_SIZE NUL) = clientQname pida := by
    rw [hqneq]
    exact cstr_set_after _ _ _ (clientQname_not_mem_nul pida) hlen
  have hname : replyName c (requestMsg c cl1.req) = clientQname pida := by
    rw [hcl]
    simp only [replyName, requestMsg, terminate]
    exact hq2
  refine ⟨?_, ?_, ?_, hname, ?_⟩
  · rw [hcl]; simp only [hq1]
  · rw [hw1, ← hq1]
    exact mq_open_creat_find _ _ _ _ hcr
  · rw [hcl]; exact hq1
  · intro s s2 w w2 h
    obtain ⟨-, -, hdel, hother⟩ := serverIter_delivery c s s2 _ w w2 rfl h
    refine ⟨hother (clientQname pidb) (by rw [hname]; exact fun e => hnames e.symm), ?_⟩
    intro q hq hsz
    rw [hname] at hdel
    exact hdel q hq hsz

/-- Witness of C2: `helloClient` (process 4242) and `worldClient` (process 4243) of
`demo` have both created their reply queues; the server takes the request of
`helloClient`: the reply is appended to the queue of process 4242 and the queue of
process 4243 stays empty. -/
theorem C2_reply_addressing_witness :
    clientQname 4242 ≠ clientQname 4243 ∧
    ((clientStart demo helloClient demoWorld).state helloClient).my_qd
      = some (clientQname 4242) ∧
    replyName demo helloMsg = clientQname 4242 ∧
    ((serverIter demo demoServer (.data helloMsg) pairWorld).world pairWorld).find
        (clientQname 4243) = pairWorld.find (clientQname 4243) ∧
    ((serverIter demo demoServer (.data helloMsg) pairWorld).world pairWorld).queues.map
        (fun q => (q.name, q.msgs.map (fun m => cstr m.asRes.buffer)))
      = [(demo.SERVER_QNAME, []), (clientQname 4242, ["Your message id = 1".toList]),
         (clientQname 4243, [])] :=
  ⟨(C2_reply_addressing demo 4242 4243 (by decide)).1,
   ((C2_reply_addressing demo 4242 4243 (by decide)).2.1
      ["client".toList, "hello".toList] junkReq junkRes demoWorld
      ((clientStart demo helloClient demoWorld).world demoWorld)
      ((clientStart demo helloClient demoWorld).state helloClient)
      (by decide) (by decide) (by decide)).1,
   ((C2_reply_addressing demo 4242 4243 (by decide)).2.1
      ["client".toList, "hello".toList] junkReq junkRes demoWorld
      ((clientStart demo helloClient demoWorld).world demoWorld)
      ((clientStart demo helloClient demoWorld).state helloClient)
      (by decide) (by decide) (by decide)).2.2.2.1,
   (((C2_reply_addressing demo 4242 4243 (by decide)).2.1
      ["client".toList, "hello".toList] junkReq junkRes demoWorld
      ((clientStart demo helloClient demoWorld).world demoWorld)
      ((clientStart demo helloClient demoWorld).state helloClient)
      (by decide) (by decide) (by decide)).2.2.2.2 demoServer
      ((serverIter demo demoServer (.data helloMsg) pairWorld).state demoServer)
      pairWorld ((serverIter demo demoServer (.data helloMsg) pairWorld).world pairWorld)
      (by decide)).1,
   by decide⟩

/-- Counterexample to C2 as stated, with `QNAME_MAX_SIZE = 26`, where the assertion of
line 90 holds. The clients of processes 10000 and 100000 derive distinct names, of 26 and
27 characters. The name of process 100000 and its terminator do not fit the array
`qname`: line 123 writes past its end, and the array holds the 27 characters of the name
with no terminator. The server's store at index 26 (line 53) cuts the name to that of
process 10000, and the reply to the request of process 100000 is appended to the reply
queue of process 10000. -/
theorem C2_counterexample :
    startupAssert tight = true ∧
    clientQname 100000 ≠ clientQname 10000 ∧
    clientStart tight longClient tightWorld = .undefined ∧
    longMsg.asReq.qname = clientQname 100000 ∧
    longMsg.len = tight.sizeof_svreq ∧
    ((clientStart tight shortClient (serverStart tight junkReq junkRes emptyWorld).2).state
        shortClient).my_qd = some (clientQname 10000) ∧
    replyName tight longMsg = clientQname 10000 ∧
    replyName tight longMsg ≠ clientQname 100000 ∧
    tightWorld.queues.map (fun q => (q.name, q.msgs.length))
      = [(tight.SERVER_QNAME, 0), (clientQname 10000, 0)] ∧
    ((serverIter tight tightServer (.data longMsg) tightWorld).world tightWorld).queues.map
        (fun q => (q.name, q.msgs.map (fun m => cstr m.asRes.buffer)))
      = [(tight.SERVER_QNAME, []), (clientQname 10000, ["Your message id = 1".toList])] := by
  decide


end MsgQ
